import Mathlib

/-!
Verification development for the download-orchestration core of a
Telegram media-downloader bot (NestJS + yt-dlp + grammY).

Each definition is a shallow embedding of one function of the source:

* `Ytdlp.getBestFormats`   — `YtdlpService.getBestFormats` (ytdlp.service.ts)
* `Ytdlp.codeEmit`         — the progress-throttling loop of
                             `YtdlpService.downloadVideo` (ytdlp.service.ts)
* `Session.sessionSave` / `Session.sessionGet`
                           — `VideoSessionService.save` / `.get`
                             (video-session.service.ts), over a store model
                             of the Prisma `videoSession` table (id primary key)
* `Orch.handleQualitySelection` — the control flow of
                             `DownloaderService.handleQualitySelection`
* `Orch.runRace`           — an interleaving semantics for two concurrent
                             executions of the dedup check in
                             `DownloaderService.handleQualitySelection`
* `Orch.processDownload`   — the outcome skeleton of
                             `DownloaderService.processDownload`
* `Orch.visibleFormats` / `Orch.presentChoices`
                           — the presentation filter of
                             `DownloaderService.handleUrl`

Effectful TypeScript is embedded as explicit state passing; each external
await that can throw becomes a Boolean of the environment saying whether it
succeeds.  JavaScript numbers that are sizes/heights are Nat; progress
percentages (parsed decimals) are ℚ.
-/

namespace Ytdlp

/-- `FormatDto` of dto/video-info.dto.ts. -/
structure FormatDto where
  formatId : String
  ext : String
  resolution : String
  filesize : Nat
  quality : Nat
  hasAudio : Bool
  vcodec : Option String
  deriving Repr, DecidableEq

/-- One raw per-format record of yt-dlp's JSON dump, with exactly the fields
`getBestFormats` reads (`format_id`, `vcodec`, `acodec`, `height`,
`filesize`, `filesize_approx`); a missing/null field is `none`. -/
structure RawFormat where
  format_id : String
  vcodec : Option String
  acodec : Option String
  height : Option Nat
  filesize : Option Nat
  filesize_approx : Option Nat
  deriving Repr, DecidableEq

/-- JS truthiness of an optional string (`undefined`, `null` and `""` are falsy). -/
def truthyStr : Option String → Bool
  | none => false
  | some s => !(s == "")

/-- `f.vcodec && f.vcodec !== 'none'`. -/
def hasVideoB (f : RawFormat) : Bool :=
  truthyStr f.vcodec && !(f.vcodec == some "none")

/-- `f.acodec && f.acodec !== 'none'`. -/
def hasAudioB (f : RawFormat) : Bool :=
  truthyStr f.acodec && !(f.acodec == some "none")

/-- JS `x || d` for an optional number `x` (0 is falsy). -/
def jsNum : Option Nat → Nat → Nat
  | none, d => d
  | some n, d => if n == 0 then d else n

/-- `f.filesize || f.filesize_approx || 0`. -/
def sizeOf (f : RawFormat) : Nat := jsNum f.filesize (jsNum f.filesize_approx 0)

/-- `f.height || 0`. -/
def heightOf (f : RawFormat) : Nat := jsNum f.height 0

/-- `pat` matches at the head of the character list. -/
def charsMatch : List Char → List Char → Bool
  | [], _ => true
  | _ :: _, [] => false
  | p :: ps, c :: cs => p == c && charsMatch ps cs

/-- `pat` occurs somewhere in the character list. -/
def charsHasSub (pat : List Char) : List Char → Bool
  | [] => charsMatch pat []
  | c :: cs => charsMatch pat (c :: cs) || charsHasSub pat cs

/-- JS `s.includes(pat)`. -/
def strIncludes (s pat : String) : Bool := charsHasSub pat.data s.data

/-- `s.toLowerCase()` at the character-list level (the codec tags involved are
ASCII, where JS `toLowerCase` and `Char.toLower` agree). -/
def lowerData (s : String) : List Char := s.data.map Char.toLower

/-- `f.vcodec?.toLowerCase().includes('avc1') || f.vcodec?.toLowerCase().includes('h264')`
(optional chaining on a null codec is falsy). -/
def isH264Codec : Option String → Bool
  | none => false
  | some v => charsHasSub "avc1".data (lowerData v) || charsHasSub "h264".data (lowerData v)

/-- `existing.vcodec?.includes('avc')` (case-sensitive, as in the source). -/
def incumbentHasAvc : Option String → Bool
  | none => false
  | some v => strIncludes v "avc"

/-- The audio `FormatDto` pushed for an audio-only record. -/
def mkAudioDto (f : RawFormat) : FormatDto :=
  { formatId := f.format_id, ext := "m4a", resolution := "audio",
    filesize := sizeOf f, quality := 0, hasAudio := true, vcodec := none }

/-- The video `FormatDto` stored for a video record of height `h`. -/
def mkVideoDto (f : RawFormat) (h : Nat) : FormatDto :=
  { formatId := f.format_id, ext := "mp4", resolution := Nat.repr h ++ "p",
    filesize := sizeOf f, quality := h, hasAudio := hasAudioB f, vcodec := f.vcodec }

/-- `Map.get` of the insertion-ordered JS `Map<number, FormatDto>`. -/
def lookupH (k : Nat) : List (Nat × FormatDto) → Option FormatDto
  | [] => none
  | p :: ps => if p.1 = k then some p.2 else lookupH k ps

/-- `Map.set`: replace in place when the key exists, else append. -/
def setH (k : Nat) (v : FormatDto) : List (Nat × FormatDto) → List (Nat × FormatDto)
  | [] => [(k, v)]
  | p :: ps => if p.1 = k then (k, v) :: ps else p :: setH k v ps

/-- The displacement test of the video branch:
`size > 0 && (!existing || size > existing.filesize || (isH264 && !existing.vcodec?.includes('avc')))`. -/
def keepB (m : List (Nat × FormatDto)) (f : RawFormat) : Bool :=
  match lookupH (heightOf f) m with
  | none => decide (0 < sizeOf f)
  | some e =>
      decide (0 < sizeOf f) &&
        (decide (e.filesize < sizeOf f) ||
          (isH264Codec f.vcodec && !incumbentHasAvc e.vcodec))

/-- The body of the `formats.forEach` loop: state is the video `Map` (as an
insertion-ordered association list) and the audio array. -/
def processFormat (st : List (Nat × FormatDto) × List FormatDto) (f : RawFormat) :
    List (Nat × FormatDto) × List FormatDto :=
  if !hasVideoB f && hasAudioB f then
    (st.1, st.2 ++ [mkAudioDto f])
  else if hasVideoB f then
    if heightOf f < 144 then st
    else if keepB st.1 f then (setH (heightOf f) (mkVideoDto f (heightOf f)) st.1, st.2)
    else st
  else st

/-- Stable insertion into a list sorted descending by `key`. -/
def insDescBy (key : FormatDto → Nat) (f : FormatDto) : List FormatDto → List FormatDto
  | [] => [f]
  | g :: gs => if key g ≤ key f then f :: g :: gs else g :: insDescBy key f gs

/-- The stable descending sort `arr.sort((a, b) => key(b) - key(a))`. -/
def sortDescBy (key : FormatDto → Nat) : List FormatDto → List FormatDto
  | [] => []
  | f :: fs => insDescBy key f (sortDescBy key fs)

/-- `YtdlpService.getBestFormats`. -/
def getBestFormats (formats : List RawFormat) : List FormatDto :=
  let st := formats.foldl processFormat ([], [])
  let sortedVideos := sortDescBy (fun f => f.quality) (st.1.map (fun p => p.2))
  match sortDescBy (fun f => f.filesize) st.2 with
  | [] => sortedVideos
  | bestAudio :: _ => sortedVideos ++ [bestAudio]

/-- A raw record is audio-only (`!hasVideo && hasAudio`). -/
def isAudioRecB (f : RawFormat) : Bool := !hasVideoB f && hasAudioB f

/-- A raw record is a video record that the resolver can retain at height `h`:
video-bearing, at least 144 tall, at height `h`, with positive declared size. -/
def goodAt (h : Nat) (f : RawFormat) : Bool :=
  hasVideoB f && decide (144 ≤ heightOf f) && (heightOf f == h) && decide (0 < sizeOf f)

/-- Invariant of the video map: keys are distinct, and every entry is a video
candidate of its key height (quality = key ≥ 144, resolution `"<h>p"`). -/
def VInv (m : List (Nat × FormatDto)) : Prop :=
  (m.map (fun p => p.1)).Nodup ∧
    ∀ p ∈ m, p.2.quality = p.1 ∧ 144 ≤ p.1 ∧ p.2.resolution = Nat.repr p.1 ++ "p"

/-- Invariant of the audio pool: every entry is the audio DTO shape. -/
def AInv (as : List FormatDto) : Prop :=
  ∀ a ∈ as, a.quality = 0 ∧ a.resolution = "audio"

/-- Counterexample input: VP9-coded video record, height 720, declared size 2000. -/
def rawVp9v2000 : RawFormat :=
  { format_id := "vf1", vcodec := some "vp9", acodec := some "none",
    height := some 720, filesize := some 2000, filesize_approx := none }

/-- avc1-coded video record, height 720, declared size 1000. -/
def rawAvc1000 : RawFormat :=
  { format_id := "vf2", vcodec := some "avc1.640028", acodec := some "none",
    height := some 720, filesize := some 1000, filesize_approx := none }

/-- avc1-coded video record, height 720, declared size 2000. -/
def rawAvc2000 : RawFormat :=
  { format_id := "vf3", vcodec := some "avc1.640028", acodec := some "none",
    height := some 720, filesize := some 2000, filesize_approx := none }

/-- VP9-coded video record, height 720, declared size 1000. -/
def rawVp9v1000 : RawFormat :=
  { format_id := "vf4", vcodec := some "vp9", acodec := some "none",
    height := some 720, filesize := some 1000, filesize_approx := none }

/-- Video record at height 480 with no declared size at all (size 0). -/
def rawNoSize480 : RawFormat :=
  { format_id := "vf5", vcodec := some "vp9", acodec := some "none",
    height := some 480, filesize := none, filesize_approx := none }

/-- The progress-throttling loop of `YtdlpService.downloadVideo`: the mutable
`lastProgress` starts at 0; a parsed percentage token `p` triggers
`onProgress` exactly when `percent - lastProgress >= 5 || percent >= 99`, and
only then does `lastProgress` advance to `p`.  The input list is the sequence
of valid percentages parsed from stdout, the output the reported ones. -/
def codeEmit (last : ℚ) : List ℚ → List ℚ
  | [] => []
  | p :: ps => if 5 ≤ p - last ∨ 99 ≤ p then p :: codeEmit p ps else codeEmit last ps

/-- The value last reported so far (0 before any report). -/
def lastReported (emitted : List ℚ) : ℚ := emitted.getLast?.getD 0

/-- Spec-side rendering of the claim's words, for comparison with `codeEmit`:
a percentage update is reported exactly when it is at least 5 points greater
than the last reported value or signals completion (≥ 99); `emitted`
accumulates the reports made so far. -/
def specEmitAux (emitted : List ℚ) : List ℚ → List ℚ
  | [] => []
  | p :: ps =>
      if 5 ≤ p - lastReported emitted ∨ 99 ≤ p then p :: specEmitAux (emitted ++ [p]) ps
      else specEmitAux emitted ps

/-- Spec-side reported sequence, starting from no reports. -/
def specEmit (ps : List ℚ) : List ℚ := specEmitAux [] ps

end Ytdlp

namespace Session

/-- `VideoInfoDto` of dto/video-info.dto.ts. -/
structure VideoInfoDto where
  id : String
  url : String
  title : String
  uploader : String
  duration : Nat
  viewCount : Nat
  likeCount : Nat
  uploadDate : String
  thumbnail : String
  width : Nat
  height : Nat
  formats : List Ytdlp.FormatDto
  deriving Repr, DecidableEq

/-- One row of the Prisma `videoSession` table, as written by
`VideoSessionService.save` (nullable numeric columns are `Option`; `formats`
is stored as serialized JSON, modelled structurally). -/
structure SessionRow where
  id : String
  originalUrl : String
  videoId : String
  title : String
  uploader : String
  duration : Nat
  viewCount : Option Nat
  likeCount : Option Nat
  uploadDate : String
  thumbnail : String
  formats : List Ytdlp.FormatDto
  expiresAt : Nat
  deriving Repr, DecidableEq

/-- The `videoSession` table; `id` is the primary key.  Time is epoch ms. -/
abbrev Store := List SessionRow

def sevenDaysMs : Nat := 7 * 24 * 60 * 60 * 1000

/-- `prisma.videoSession.create`: insert; a duplicate of the primary key `id`
is rejected with a unique-constraint error. -/
def prismaCreate (st : Store) (row : SessionRow) : Except Unit Store :=
  if st.any (fun r => r.id == row.id) then Except.error ()
  else Except.ok (st ++ [row])

/-- `prisma.videoSession.findUnique({ where: { id } })`. -/
def prismaFindUnique (st : Store) (id : String) : Option SessionRow :=
  st.find? (fun r => r.id == id)

/-- `VideoSessionService.delete`: `prisma.videoSession.delete`, with the
record-not-found error (P2025) swallowed, so it is idempotent. -/
def sessionDelete (id : String) (st : Store) : Store :=
  st.filter (fun r => !(r.id == id))

/-- `VideoSessionService.save` at time `now`: builds the row with
`expiresAt = now + 7 days` and calls `create`; a `create` error is logged and
rethrown.  JS truthiness maps a zero view/like count to a NULL column. -/
def sessionSave (now : Nat) (videoId : String) (vi : VideoInfoDto) (st : Store) :
    Except Unit Store :=
  prismaCreate st
    { id := videoId, originalUrl := vi.url, videoId := vi.id, title := vi.title,
      uploader := vi.uploader, duration := vi.duration,
      viewCount := if vi.viewCount == 0 then none else some vi.viewCount,
      likeCount := if vi.likeCount == 0 then none else some vi.likeCount,
      uploadDate := vi.uploadDate, thumbnail := vi.thumbnail,
      formats := vi.formats, expiresAt := now + sevenDaysMs }

/-- `VideoSessionService.get` at time `now`: not found → `null`; found but
`now > expiresAt` → delete the row and return `null`; otherwise rebuild the
DTO (width/height default to 0, NULL numeric columns map back to 0, a NULL
`uploader` maps to `""`). -/
def sessionGet (now : Nat) (videoId : String) (st : Store) :
    Option VideoInfoDto × Store :=
  match prismaFindUnique st videoId with
  | none => (none, st)
  | some s =>
      if s.expiresAt < now then (none, sessionDelete videoId st)
      else
        (some { id := s.videoId, url := s.originalUrl, title := s.title,
                uploader := s.uploader, duration := s.duration,
                viewCount := s.viewCount.getD 0, likeCount := s.likeCount.getD 0,
                uploadDate := s.uploadDate, thumbnail := s.thumbnail,
                width := 0, height := 0, formats := s.formats }, st)

/-- A concrete resolved-video DTO for witness instances. -/
def viSample : VideoInfoDto :=
  { id := "vid1", url := "https://example.org/v", title := "title", uploader := "up",
    duration := 10, viewCount := 3, likeCount := 1, uploadDate := "20240101",
    thumbnail := "", width := 0, height := 0, formats := [] }

/-- A concrete stored session row (session id "s1", expiring at time 50). -/
def rowSample : SessionRow :=
  { id := "s1", originalUrl := "https://example.org/v", videoId := "vid1",
    title := "title", uploader := "up", duration := 10, viewCount := some 3,
    likeCount := some 1, uploadDate := "20240101", thumbnail := "", formats := [],
    expiresAt := 50 }

end Session

namespace Orch

/-- A row of the result cache as used on the hit path: the database id (for
hit accounting) and the Telegram `file_id` to resend. -/
structure CachedFile where
  id : Nat
  fileId : String
  deriving Repr, DecidableEq

inductive SelOutcome
  | linkExpired
  | deliveredFromCache
  | alreadyDownloading
  | enqueued
  deriving Repr, DecidableEq

/-- Environment of one `handleQualitySelection` call: the session lookup
results (in-process cache, then durable store), the result-cache lookup for
the fingerprint, whether delivery from the cached `file_id` succeeds (it
throws when the reference has expired upstream), and the keys currently in
`activeDownloads`. -/
structure SelEnv where
  memSession : Option Session.VideoInfoDto
  dbSession : Option Session.VideoInfoDto
  cachedFile : Option CachedFile
  cachedDeliveryOk : Bool
  activeKeys : List String
  deriving Repr, DecidableEq

/-- What the call did: its outcome, whether `queueService.add` was invoked
(starting a fresh fetch), and whether the cache hit was recorded. -/
structure SelResult where
  outcome : SelOutcome
  fetchEnqueued : Bool
  hitRecorded : Bool
  deriving Repr, DecidableEq

/-- Control flow of `DownloaderService.handleQualitySelection`: resolve the
session (memory first, store fallback; neither → "link expired"); check the
result cache; on a hit deliver the cached `file_id`, record the hit and stop —
if that delivery throws, fall through to the dedup check and the queue, as on
a miss.  `recordCacheHit` is best-effort telemetry per the spec and is
modelled as non-throwing. -/
def handleQualitySelection (env : SelEnv) (formatId : String) : SelResult :=
  match env.memSession.orElse (fun _ => env.dbSession) with
  | none => ⟨SelOutcome.linkExpired, false, false⟩
  | some videoData =>
      let proceed : SelResult :=
        if env.activeKeys.contains (videoData.id ++ "|" ++ formatId) then
          ⟨SelOutcome.alreadyDownloading, false, false⟩
        else ⟨SelOutcome.enqueued, true, false⟩
      match env.cachedFile with
      | some _ =>
          if env.cachedDeliveryOk then ⟨SelOutcome.deliveredFromCache, false, true⟩
          else proceed
      | none => proceed

/-- Program counter of one `handleQualitySelection` flow around the dedup
check: `preCheck` is about to evaluate `this.activeDownloads.has(key)`;
`preRegister` has passed the check and is suspended at
`await ctx.answerCallbackQuery(...)` — nothing registered yet; `finished w`
is done, `w` recording whether the flow was told to wait. -/
inductive DedupPC
  | preCheck
  | preRegister
  | finished (waited : Bool)
  deriving Repr, DecidableEq

/-- Shared state of two concurrent flows for the same dedup key. -/
structure RaceState where
  active : List String
  fetchesStarted : Nat
  pcA : DedupPC
  pcB : DedupPC
  deriving Repr, DecidableEq

/-- One atomic step of a flow.  The `preRegister` step performs
`queueService.add` (which begins the fetch) and `activeDownloads.set` in the
same synchronous block, so they form one atomic action; the suspension point
sits between the check and that block. -/
def dedupStep (key : String) (pc : DedupPC) (active : List String) (fetches : Nat) :
    DedupPC × List String × Nat :=
  match pc with
  | DedupPC.preCheck =>
      if active.contains key then (DedupPC.finished true, active, fetches)
      else (DedupPC.preRegister, active, fetches)
  | DedupPC.preRegister => (DedupPC.finished false, key :: active, fetches + 1)
  | DedupPC.finished w => (DedupPC.finished w, active, fetches)

/-- Advance flow A (`who = false`) or flow B (`who = true`) by one step. -/
def raceStep (key : String) (s : RaceState) (who : Bool) : RaceState :=
  if who then
    let r := dedupStep key s.pcB s.active s.fetchesStarted
    { active := r.2.1, fetchesStarted := r.2.2, pcA := s.pcA, pcB := r.1 }
  else
    let r := dedupStep key s.pcA s.active s.fetchesStarted
    { active := r.2.1, fetchesStarted := r.2.2, pcA := r.1, pcB := s.pcB }

def initRace : RaceState := ⟨[], 0, DedupPC.preCheck, DedupPC.preCheck⟩

/-- Run both flows (for one shared dedup key) under an interleaving schedule. -/
def runRace (key : String) (sched : List Bool) : RaceState :=
  sched.foldl (raceStep key) initRace

/-- The step of `processDownload` whose thrown error the catch handler
surfaces to the user.  `cacheWriteFailed` exists in the taxonomy but is never
surfaced: the cache write sits in its own try/catch that only logs. -/
inductive DlError
  | fetchFailed
  | uploadFailed
  | deliveryFailed
  | cacheWriteFailed
  deriving Repr, DecidableEq

/-- Which awaited externals succeed during one `processDownload` job. -/
structure DlEnv where
  fetchOk : Bool
  uploadOk : Bool
  cacheWriteOk : Bool
  deliveryOk : Bool
  deriving Repr, DecidableEq

/-- The observable outcome of one `processDownload` job. -/
structure DlResult where
  delivered : Bool
  surfacedError : Option DlError
  cacheErrorLogged : Bool
  fileOnDisk : Bool
  statsIncremented : Bool
  deriving Repr, DecidableEq

/-- Outcome skeleton of `DownloaderService.processDownload`: download, upload
to the archive channel, cache write (own try/catch: a failure is logged and
execution continues), delivery by `file_id`, then message cleanup, `unlink`
of the local file and statistics — all inside one try whose catch edits the
progress message to an error text and returns, without deleting the file.  A
failed fetch leaves no completed artifact at `filepath` in this model; any
later failure leaves the downloaded file on disk. -/
def processDownload (env : DlEnv) : DlResult :=
  if !env.fetchOk then
    { delivered := false, surfacedError := some DlError.fetchFailed,
      cacheErrorLogged := false, fileOnDisk := false, statsIncremented := false }
  else if !env.uploadOk then
    { delivered := false, surfacedError := some DlError.uploadFailed,
      cacheErrorLogged := false, fileOnDisk := true, statsIncremented := false }
  else if !env.deliveryOk then
    { delivered := false, surfacedError := some DlError.deliveryFailed,
      cacheErrorLogged := !env.cacheWriteOk, fileOnDisk := true, statsIncremented := false }
  else
    { delivered := true, surfacedError := none,
      cacheErrorLogged := !env.cacheWriteOk, fileOnDisk := false, statsIncremented := true }

/-- JS `parseInt(s, 10)` on the resolution labels: the leading decimal digits,
or none (NaN) when the string does not start with a digit. -/
def parseIntLead (s : String) : Option Nat :=
  let ds := s.data.takeWhile Char.isDigit
  if ds.isEmpty then none
  else some (ds.foldl (fun n c => n * 10 + (c.toNat - 48)) 0)

/-- The presentation filter of `DownloaderService.handleUrl`: drop the audio
entry and every video whose parsed height is outside [360, 1080]; sort the
survivors by parsed height descending; then append the first `audio` entry of
the original list, when present. -/
def visibleFormats (allFormats : List Ytdlp.FormatDto) : List Ytdlp.FormatDto :=
  let audioFormat := allFormats.find? (fun f => f.resolution == "audio")
  let videoFormats := allFormats.filter (fun f =>
    if f.resolution == "audio" then false
    else
      match parseIntLead f.resolution with
      | none => false
      | some h => decide (360 ≤ h) && decide (h ≤ 1080))
  let sorted := Ytdlp.sortDescBy (fun f => (parseIntLead f.resolution).getD 0) videoFormats
  match audioFormat with
  | some a => sorted ++ [a]
  | none => sorted

inductive PresentOutcome
  | noUsable
  | choices (fs : List Ytdlp.FormatDto)
  deriving Repr, DecidableEq

/-- After filtering, `handleUrl` either reports that no usable quality is left
(and returns without building the selection keyboard) or presents the list. -/
def presentChoices (allFormats : List Ytdlp.FormatDto) : PresentOutcome :=
  if (visibleFormats allFormats).isEmpty then PresentOutcome.noUsable
  else PresentOutcome.choices (visibleFormats allFormats)

/-- A concrete selection environment: session in memory, cache hit, delivery
from the cached reference succeeds, nothing in flight. -/
def envHit : SelEnv :=
  { memSession := some Session.viSample, dbSession := none,
    cachedFile := some ⟨1, "file123"⟩, cachedDeliveryOk := true, activeKeys := [] }

/-- Like `envHit`, but delivering the cached reference throws. -/
def envHitStale : SelEnv :=
  { memSession := some Session.viSample, dbSession := none,
    cachedFile := some ⟨1, "file123"⟩, cachedDeliveryOk := false, activeKeys := [] }

end Orch

namespace Ytdlp

theorem insDescBy_perm (key : FormatDto → Nat) (f : FormatDto) (l : List FormatDto) :
    List.Perm (insDescBy key f l) (f :: l) := by
  induction l with
  | nil => simp [insDescBy]
  | cons g gs ih =>
    simp only [insDescBy]
    split
    · exact List.Perm.refl _
    · exact (ih.cons g).trans (List.Perm.swap f g gs)

theorem sortDescBy_perm (key : FormatDto → Nat) (l : List FormatDto) :
    List.Perm (sortDescBy key l) l := by
  induction l with
  | nil => simp [sortDescBy]
  | cons f fs ih => exact (insDescBy_perm key f _).trans (ih.cons f)

theorem mem_insDescBy {key : FormatDto → Nat} {f a : FormatDto} {l : List FormatDto} :
    a ∈ insDescBy key f l ↔ a = f ∨ a ∈ l := by
  rw [(insDescBy_perm key f l).mem_iff, List.mem_cons]

theorem pairwise_insDescBy (key : FormatDto → Nat) (f : FormatDto) {l : List FormatDto}
    (h : l.Pairwise (fun a b => key b ≤ key a)) :
    (insDescBy key f l).Pairwise (fun a b => key b ≤ key a) := by
  induction l with
  | nil => simp [insDescBy]
  | cons g gs ih =>
    rw [List.pairwise_cons] at h
    simp only [insDescBy]
    split
    · rename_i hgf
      refine List.pairwise_cons.mpr ⟨?_, List.pairwise_cons.mpr h⟩
      intro b hb
      rcases List.mem_cons.mp hb with hb | hb
      · exact hb ▸ hgf
      · exact le_trans (h.1 b hb) hgf
    · rename_i hgf
      refine List.pairwise_cons.mpr ⟨?_, ih h.2⟩
      intro b hb
      rcases mem_insDescBy.mp hb with hb | hb
      · exact hb ▸ le_of_not_le hgf
      · exact h.1 b hb

theorem pairwise_sortDescBy (key : FormatDto → Nat) (l : List FormatDto) :
    (sortDescBy key l).Pairwise (fun a b => key b ≤ key a) := by
  induction l with
  | nil => simp [sortDescBy]
  | cons f fs ih => exact pairwise_insDescBy key f ih

theorem lookupH_setH (k k' : Nat) (v : FormatDto) (m : List (Nat × FormatDto)) :
    lookupH k' (setH k v m) = if k = k' then some v else lookupH k' m := by
  induction m with
  | nil => simp [setH, lookupH]
  | cons p ps ih =>
    simp only [setH]
    by_cases hpk : p.1 = k
    · simp only [hpk, if_pos rfl, lookupH]
      by_cases hkk : k = k' <;> simp [hkk, hpk]
    · simp only [if_neg hpk, lookupH]
      by_cases hpk' : p.1 = k'
      · have : ¬ k = k' := fun h => hpk (h ▸ hpk')
        simp [hpk', this]
      · simp [hpk', ih]

theorem lookupH_eq_none_iff (k : Nat) (m : List (Nat × FormatDto)) :
    lookupH k m = none ↔ ∀ p ∈ m, p.1 ≠ k := by
  induction m with
  | nil => simp [lookupH]
  | cons p ps ih =>
    simp only [lookupH, List.mem_cons]
    by_cases hpk : p.1 = k
    · simp [hpk]
    · simp only [if_neg hpk, ih]
      constructor
      · rintro h q (rfl | hq)
        · exact hpk
        · exact h q hq
      · intro h q hq; exact h q (Or.inr hq)

theorem keys_setH_of_none {k : Nat} {m : List (Nat × FormatDto)} (v : FormatDto)
    (h : lookupH k m = none) :
    (setH k v m).map (fun p => p.1) = m.map (fun p => p.1) ++ [k] := by
  induction m with
  | nil => simp [setH]
  | cons p ps ih =>
    simp only [lookupH] at h
    have hpk : ¬ p.1 = k := by
      intro hh; rw [if_pos hh] at h; exact Option.noConfusion h
    rw [if_neg hpk] at h
    simp [setH, if_neg hpk, ih h]

theorem keys_setH_of_some {k : Nat} {m : List (Nat × FormatDto)} (v : FormatDto)
    {e : FormatDto} (h : lookupH k m = some e) :
    (setH k v m).map (fun p => p.1) = m.map (fun p => p.1) := by
  induction m with
  | nil => simp [lookupH] at h
  | cons p ps ih =>
    simp only [lookupH] at h
    by_cases hpk : p.1 = k
    · simp [setH, if_pos hpk, hpk]
    · rw [if_neg hpk] at h
      simp [setH, if_neg hpk, ih h]

theorem mem_setH {k : Nat} {v : FormatDto} {m : List (Nat × FormatDto)}
    {p : Nat × FormatDto} (h : p ∈ setH k v m) : p = (k, v) ∨ p ∈ m := by
  induction m with
  | nil => simpa [setH] using h
  | cons q qs ih =>
    simp only [setH] at h
    split at h
    · rcases List.mem_cons.mp h with h | h
      · exact Or.inl h
      · exact Or.inr (List.mem_cons.mpr (Or.inr h))
    · rcases List.mem_cons.mp h with h | h
      · exact Or.inr (List.mem_cons.mpr (Or.inl h))
      · rcases ih h with h | h
        · exact Or.inl h
        · exact Or.inr (List.mem_cons.mpr (Or.inr h))

theorem processFormat_fst (st : List (Nat × FormatDto) × List FormatDto) (f : RawFormat) :
    (processFormat st f).1 =
      if hasVideoB f = true ∧ ¬ heightOf f < 144 ∧ keepB st.1 f = true then
        setH (heightOf f) (mkVideoDto f (heightOf f)) st.1
      else st.1 := by
  unfold processFormat
  by_cases hv : hasVideoB f = true
  · by_cases hlt : heightOf f < 144
    · simp [hv, hlt]
    · by_cases hk : keepB st.1 f = true
      · simp [hv, hlt, hk]
      · simp [hv, hlt, hk]
  · have hv' : hasVideoB f = false := by simpa using hv
    cases hab : hasAudioB f
    · simp [hv', hab, hv]
    · simp [hv', hab, hv]

theorem keepB_pos {m : List (Nat × FormatDto)} {f : RawFormat} (h : keepB m f = true) :
    0 < sizeOf f := by
  unfold keepB at h
  rcases hcase : lookupH (heightOf f) m with _ | e <;> rw [hcase] at h
  · exact of_decide_eq_true h
  · simp only [Bool.and_eq_true, decide_eq_true_eq] at h
    exact h.1

theorem keepB_of_none {m : List (Nat × FormatDto)} {f : RawFormat}
    (hnone : lookupH (heightOf f) m = none) (hpos : 0 < sizeOf f) : keepB m f = true := by
  unfold keepB
  rw [hnone]
  exact decide_eq_true hpos

theorem lookupH_processFormat (st : List (Nat × FormatDto) × List FormatDto)
    (f : RawFormat) (h : Nat) :
    (lookupH h (processFormat st f).1).isSome
      = ((lookupH h st.1).isSome || goodAt h f) := by
  rw [processFormat_fst]
  split
  · rename_i hc
    obtain ⟨hv, hlt, hk⟩ := hc
    rw [lookupH_setH]
    by_cases hh : heightOf f = h
    · subst hh
      have h144 : 144 ≤ heightOf f := Nat.not_lt.mp hlt
      have hpos := keepB_pos hk
      simp [goodAt, hv, h144, hpos]
    · simp [hh, goodAt]
  · rename_i hc
    cases hg : goodAt h f with
    | false => simp
    | true =>
      simp only [goodAt, Bool.and_eq_true, decide_eq_true_eq, beq_iff_eq] at hg
      obtain ⟨⟨⟨hv, h144⟩, hh⟩, hpos⟩ := hg
      have hk : keepB st.1 f = false := by
        cases hkk : keepB st.1 f
        · rfl
        · exact absurd ⟨hv, Nat.not_lt.mpr h144, hkk⟩ hc
      have hsome : (lookupH h st.1).isSome = true := by
        rcases hcase : lookupH h st.1 with _ | e
        · have : keepB st.1 f = true := keepB_of_none (by rw [hh]; exact hcase) hpos
          rw [this] at hk
          exact Bool.noConfusion hk
        · rfl
      simp [hsome]

theorem lookupH_foldl (fs : List RawFormat) (st : List (Nat × FormatDto) × List FormatDto)
    (h : Nat) :
    (lookupH h (fs.foldl processFormat st).1).isSome
      = ((lookupH h st.1).isSome || fs.any (goodAt h)) := by
  induction fs generalizing st with
  | nil => simp
  | cons f fs ih =>
    rw [List.foldl_cons, ih, lookupH_processFormat, List.any_cons, Bool.or_assoc]

theorem append_p_ne_audio (s : String) : ¬ (s ++ "p" = "audio") := by
  intro hEq
  have hdata : s.data ++ ['p'] = ['a', 'u', 'd', 'i', 'o'] := by
    have : (s ++ "p").data = "audio".data := by rw [hEq]
    simpa using this
  have hlast : (s.data ++ ['p']).getLast? = some 'p' := by
    simp
  rw [hdata] at hlast
  simp at hlast

theorem vinv_setH {m : List (Nat × FormatDto)} {k : Nat} {v : FormatDto}
    (hm : VInv m) (hv : v.quality = k ∧ 144 ≤ k ∧ v.resolution = Nat.repr k ++ "p") :
    VInv (setH k v m) := by
  obtain ⟨hnd, hall⟩ := hm
  constructor
  · rcases hcase : lookupH k m with _ | e
    · rw [keys_setH_of_none v hcase]
      have hk : k ∉ m.map (fun p => p.1) := by
        intro hmem
        obtain ⟨p, hp, hpk⟩ := List.mem_map.mp hmem
        exact (lookupH_eq_none_iff k m).mp hcase p hp hpk
      rw [List.nodup_append]
      refine ⟨hnd, List.nodup_singleton _, ?_⟩
      intro x hx hx2
      simp only [List.mem_singleton] at hx2
      exact hk (hx2 ▸ hx)
    · rw [keys_setH_of_some v hcase]
      exact hnd
  · intro p hp
    rcases mem_setH hp with rfl | hp
    · exact hv
    · exact hall p hp

theorem vinv_processFormat (st : List (Nat × FormatDto) × List FormatDto) (f : RawFormat)
    (hm : VInv st.1) : VInv (processFormat st f).1 := by
  rw [processFormat_fst]
  split
  · rename_i hc
    exact vinv_setH hm ⟨rfl, Nat.not_lt.mp hc.2.1, rfl⟩
  · exact hm

theorem vinv_foldl (fs : List RawFormat) (st : List (Nat × FormatDto) × List FormatDto)
    (hm : VInv st.1) : VInv (fs.foldl processFormat st).1 := by
  induction fs generalizing st with
  | nil => exact hm
  | cons f fs ih => exact ih _ (vinv_processFormat st f hm)

theorem audios_processFormat (st : List (Nat × FormatDto) × List FormatDto) (f : RawFormat) :
    (processFormat st f).2 =
      st.2 ++ (if isAudioRecB f = true then [mkAudioDto f] else []) := by
  unfold processFormat isAudioRecB
  by_cases ha : (!hasVideoB f && hasAudioB f) = true
  · simp [ha]
  · by_cases hv : hasVideoB f = true
    · by_cases hlt : heightOf f < 144
      · simp [ha, hv, hlt]
      · by_cases hk : keepB st.1 f = true <;> simp [ha, hv, hlt, hk]
    · have hv' : hasVideoB f = false := by simpa using hv
      have hab : hasAudioB f = false := by simpa [hv'] using ha
      simp [ha, hv, hab]

theorem audios_foldl (fs : List RawFormat) (st : List (Nat × FormatDto) × List FormatDto) :
    (fs.foldl processFormat st).2 = st.2 ++ (fs.filter isAudioRecB).map mkAudioDto := by
  induction fs generalizing st with
  | nil => simp
  | cons f fs ih =>
    rw [List.foldl_cons, ih, audios_processFormat]
    by_cases ha : isAudioRecB f = true <;> simp [ha, List.filter_cons]

theorem countP_keys_of_lookup (m : List (Nat × FormatDto)) (h : Nat)
    (hnd : (m.map (fun p => p.1)).Nodup) :
    m.countP (fun p => p.1 == h) = (if (lookupH h m).isSome then 1 else 0) := by
  induction m with
  | nil => simp [lookupH]
  | cons p ps ih =>
    simp only [List.map_cons, List.nodup_cons] at hnd
    rw [List.countP_cons]
    by_cases hpk : p.1 = h
    · have hz : ps.countP (fun q => q.1 == h) = 0 := by
        rw [List.countP_eq_zero]
        intro q hq
        simp only [beq_iff_eq]
        intro hqk
        exact hnd.1 (hpk ▸ hqk ▸ List.mem_map_of_mem (fun r => r.1) hq)
      simp [lookupH, hpk, hz]
    · rw [ih hnd.2]
      simp [lookupH, hpk]

theorem countP_values_eq_countP_keys (m : List (Nat × FormatDto)) (h : Nat)
    (hall : ∀ p ∈ m, p.2.quality = p.1) :
    (m.map (fun p => p.2)).countP (fun v => v.quality == h) = m.countP (fun p => p.1 == h) := by
  induction m with
  | nil => simp
  | cons p ps ih =>
    simp only [List.map_cons, List.countP_cons]
    rw [ih (fun q hq => hall q (List.mem_cons_of_mem p hq))]
    have := hall p (List.mem_cons_self p ps)
    simp [this]

theorem vinv_nil : VInv [] := ⟨List.nodup_nil, by intro p hp; cases hp⟩

/-- The number of entries of `getBestFormats fs` at quality `h ≥ 144` is 1 or 0
according to whether the folded video map holds the key `h`. -/
theorem countP_quality_getBestFormats (fs : List RawFormat) (h : Nat) (h144 : 144 ≤ h) :
    (getBestFormats fs).countP (fun v => v.quality == h)
      = if (lookupH h (fs.foldl processFormat ([], [])).1).isSome then 1 else 0 := by
  have hinv : VInv (fs.foldl processFormat ([], [])).1 := vinv_foldl fs ([], []) vinv_nil
  have hvid :
      (sortDescBy (fun f => f.quality)
          ((fs.foldl processFormat ([], [])).1.map (fun p => p.2))).countP
            (fun v => v.quality == h)
        = if (lookupH h (fs.foldl processFormat ([], [])).1).isSome then 1 else 0 := by
    rw [(sortDescBy_perm _ _).countP_eq]
    rw [countP_values_eq_countP_keys _ h (fun p hp => (hinv.2 p hp).1)]
    exact countP_keys_of_lookup _ h hinv.1
  rcases hsa : sortDescBy (fun f => f.filesize) (fs.foldl processFormat ([], [])).2
    with _ | ⟨a, rest⟩
  · simp only [getBestFormats, hsa]
    exact hvid
  · simp only [getBestFormats, hsa]
    have ha0 : a.quality = 0 := by
      have hmem : a ∈ sortDescBy (fun f => f.filesize) (fs.foldl processFormat ([], [])).2 := by
        rw [hsa]
        exact List.mem_cons_self a rest
      have hmem2 : a ∈ (fs.foldl processFormat ([], [])).2 :=
        (sortDescBy_perm _ _).mem_iff.mp hmem
      rw [audios_foldl, List.nil_append] at hmem2
      obtain ⟨r, _, rfl⟩ := List.mem_map.mp hmem2
      rfl
    have hne : (a.quality == h) = false := by
      rw [ha0]
      simp only [beq_eq_false_iff_ne, ne_eq]
      omega
    rw [List.countP_append, hvid]
    simp [List.countP_cons, hne]

/-- C3, counterexample.  The claim's stated precedence ("larger size wins;
codec compatibility only breaks size ties") fails on the code: given a VP9
record of size 2000 followed by an avc1 record of size 1000 at the same
height 720, the smaller avc1 record displaces the larger one, so the retained
candidate has size 1000, not 2000.  Moreover a height whose only record has
declared size 0 keeps no candidate at all, against "keeps exactly one". -/
theorem C3_resolver_precedence_counterexample :
    (getBestFormats [rawVp9v2000, rawAvc1000]).map (fun f => f.filesize) = [1000]
      ∧ ((getBestFormats [rawVp9v2000, rawAvc1000]).map (fun f => f.filesize) == [2000]) = false
      ∧ getBestFormats [rawNoSize480] = [] := by
  refine ⟨by decide, by decide, by decide⟩

/-- C3, amended.  For every height `h ≥ 144` carrying at least one
video-bearing record of positive declared size, the resolver keeps exactly one
candidate at `h`.  A challenger with positive size displaces the incumbent
when it is strictly larger, or when its codec is H.264/AVC-compatible and the
incumbent's codec tag does not contain `avc` — even if the challenger is
smaller.  In particular: with sizes 1000 and 2000 and both codecs avc1, the
2000-size record is retained in either input order; with equal size 1000,
one avc1 and one VP9 record, the avc1 record is retained in either order. -/
theorem C3_resolver_precedence_amended :
    (∀ (fs : List RawFormat) (h : Nat), 144 ≤ h → fs.any (goodAt h) = true →
      (getBestFormats fs).countP (fun v => v.quality == h) = 1)
    ∧ (getBestFormats [rawAvc2000, rawAvc1000]).map (fun f => f.filesize) = [2000]
    ∧ (getBestFormats [rawAvc1000, rawAvc2000]).map (fun f => f.filesize) = [2000]
    ∧ (getBestFormats [rawVp9v1000, rawAvc1000]).map (fun f => f.formatId) = ["vf2"]
    ∧ (getBestFormats [rawAvc1000, rawVp9v1000]).map (fun f => f.formatId) = ["vf2"] := by
  refine ⟨?_, by decide, by decide, by decide, by decide⟩
  intro fs h h144 hany
  rw [countP_quality_getBestFormats fs h h144, lookupH_foldl]
  simp [lookupH, hany]

/-- C3 witness: the general part of the amended claim at a concrete input. -/
theorem C3_resolver_precedence_amended_witness :
    (getBestFormats [rawAvc2000]).countP (fun v => v.quality == 720) = 1 :=
  C3_resolver_precedence_amended.1 [rawAvc2000] 720 (by decide) (by decide)

theorem map_quality_eq_keys (m : List (Nat × FormatDto))
    (hall : ∀ p ∈ m, p.2.quality = p.1) :
    (m.map (fun p => p.2)).map (fun v => v.quality) = m.map (fun p => p.1) := by
  induction m with
  | nil => rfl
  | cons p ps ih =>
    simp only [List.map_cons]
    rw [hall p (List.mem_cons_self p ps), ih (fun q hq => hall q (List.mem_cons_of_mem p hq))]

theorem getBestFormats_eq (fs : List RawFormat) :
    getBestFormats fs
      = sortDescBy (fun f => f.quality)
            ((fs.foldl processFormat ([], [])).1.map (fun p => p.2))
          ++ (sortDescBy (fun f => f.filesize) (fs.foldl processFormat ([], [])).2).take 1 := by
  rcases hsa : sortDescBy (fun f => f.filesize) (fs.foldl processFormat ([], [])).2
    with _ | ⟨a, rest⟩
  · simp [getBestFormats, hsa]
  · simp [getBestFormats, hsa]

/-- C4: the resolver's output shape.  On empty input the output is empty; no
video (non-audio) candidate sits below 144; qualities strictly decrease along
the list (so there is one candidate per height, sorted best first, with the
quality-0 audio entry, if any, last); at most one audio entry occurs; and an
audio entry is the final element and carries the largest declared size of all
audio-only input records. -/
theorem C4_output_shape :
    getBestFormats [] = []
    ∧ ∀ fs : List RawFormat,
        (∀ f ∈ getBestFormats fs, ¬ f.resolution = "audio" → 144 ≤ f.quality)
        ∧ (getBestFormats fs).Pairwise (fun a b => b.quality < a.quality)
        ∧ (getBestFormats fs).countP (fun f => f.resolution == "audio") ≤ 1
        ∧ (∀ f ∈ getBestFormats fs, f.resolution = "audio" →
            (getBestFormats fs).getLast? = some f
            ∧ ∀ r ∈ fs, isAudioRecB r = true → sizeOf r ≤ f.filesize) := by
  refine ⟨by decide, ?_⟩
  intro fs
  have hinv : VInv (fs.foldl processFormat ([], [])).1 := vinv_foldl fs ([], []) vinv_nil
  have haud : (fs.foldl processFormat ([], [])).2 = (fs.filter isAudioRecB).map mkAudioDto := by
    rw [audios_foldl]
    simp
  have hVmem : ∀ f ∈ sortDescBy (fun v => v.quality)
      ((fs.foldl processFormat ([], [])).1.map (fun p => p.2)),
      144 ≤ f.quality ∧ ¬ f.resolution = "audio" := by
    intro f hf
    have hf2 := (sortDescBy_perm _ _).mem_iff.mp hf
    obtain ⟨p, hp, rfl⟩ := List.mem_map.mp hf2
    obtain ⟨hq, h144, hres⟩ := hinv.2 p hp
    constructor
    · rw [hq]
      exact h144
    · rw [hres]
      exact append_p_ne_audio _
  have hAmem : ∀ a ∈ sortDescBy (fun v => v.filesize) (fs.foldl processFormat ([], [])).2,
      a.quality = 0 ∧ a.resolution = "audio" := by
    intro a haIn
    have hmem := (sortDescBy_perm _ _).mem_iff.mp haIn
    rw [haud] at hmem
    obtain ⟨r, _, rfl⟩ := List.mem_map.mp hmem
    exact ⟨rfl, rfl⟩
  rw [getBestFormats_eq fs]
  refine ⟨?_, ?_, ?_, ?_⟩
  · intro f hf hres
    rcases List.mem_append.mp hf with hf | hf
    · exact (hVmem f hf).1
    · exact absurd (hAmem f (List.take_subset _ _ hf)).2 hres
  · have pv := pairwise_sortDescBy (fun v => v.quality)
      ((fs.foldl processFormat ([], [])).1.map (fun p => p.2))
    have hnodup : ((sortDescBy (fun v => v.quality)
        ((fs.foldl processFormat ([], [])).1.map (fun p => p.2))).map
          (fun v => v.quality)).Nodup := by
      have hperm := ((sortDescBy_perm (fun v => v.quality)
        ((fs.foldl processFormat ([], [])).1.map (fun p => p.2)))).map (fun v => v.quality)
      rw [hperm.nodup_iff, map_quality_eq_keys _ (fun p hp => (hinv.2 p hp).1)]
      exact hinv.1
    have pne : (sortDescBy (fun v => v.quality)
        ((fs.foldl processFormat ([], [])).1.map (fun p => p.2))).Pairwise
          (fun a b => a.quality ≠ b.quality) := List.pairwise_map.mp hnodup
    have pvlt : (sortDescBy (fun v => v.quality)
        ((fs.foldl processFormat ([], [])).1.map (fun p => p.2))).Pairwise
          (fun a b => b.quality < a.quality) :=
      (pv.and pne).imp (fun h => lt_of_le_of_ne h.1 (Ne.symm h.2))
    rw [List.pairwise_append]
    refine ⟨pvlt, ?_, ?_⟩
    · rcases hA : sortDescBy (fun v => v.filesize) (fs.foldl processFormat ([], [])).2
        with _ | ⟨a, rest⟩
      · simp [hA]
      · simp [hA]
    · intro x hx y hy
      have h0 := (hAmem y (List.take_subset _ _ hy)).1
      have hx144 := (hVmem x hx).1
      rw [h0]
      omega
  · rw [List.countP_append]
    have h0 : (sortDescBy (fun v => v.quality)
        ((fs.foldl processFormat ([], [])).1.map (fun p => p.2))).countP
          (fun f => f.resolution == "audio") = 0 := by
      rw [List.countP_eq_zero]
      intro f hf
      simp only [beq_iff_eq]
      exact (hVmem f hf).2
    rw [h0]
    have hlen := List.length_take_le 1
      (sortDescBy (fun v => v.filesize) (fs.foldl processFormat ([], [])).2)
    have hcp := List.countP_le_length (l := (sortDescBy (fun v => v.filesize)
      (fs.foldl processFormat ([], [])).2).take 1) (fun f => f.resolution == "audio")
    omega
  · intro f hf hres
    have hfA : f ∈ (sortDescBy (fun v => v.filesize)
        (fs.foldl processFormat ([], [])).2).take 1 := by
      rcases List.mem_append.mp hf with hf | hf
      · exact absurd hres (hVmem f hf).2
      · exact hf
    rcases hA : sortDescBy (fun v => v.filesize) (fs.foldl processFormat ([], [])).2
      with _ | ⟨a, rest⟩
    · rw [hA] at hfA
      cases hfA
    · rw [hA] at hfA
      have ht : (a :: rest).take 1 = [a] := rfl
      rw [ht] at hfA
      simp only [List.mem_singleton] at hfA
      subst hfA
      constructor
      · rw [ht]
        exact List.getLast?_concat _
      · intro r hr hrAudio
        have hmem : mkAudioDto r ∈ sortDescBy (fun v => v.filesize)
            (fs.foldl processFormat ([], [])).2 := by
          rw [(sortDescBy_perm _ _).mem_iff, haud]
          exact List.mem_map_of_mem _ (List.mem_filter.mpr ⟨hr, hrAudio⟩)
        rw [hA] at hmem
        rcases List.mem_cons.mp hmem with heq | hmem
        · have : (mkAudioDto r).filesize ≤ f.filesize := by
            rw [heq]
          exact this
        · have pA := pairwise_sortDescBy (fun v => v.filesize)
            (fs.foldl processFormat ([], [])).2
          rw [hA, List.pairwise_cons] at pA
          exact pA.1 _ hmem

theorem codeEmit_eq_specEmitAux (emitted ps : List ℚ) :
    codeEmit (lastReported emitted) ps = specEmitAux emitted ps := by
  induction ps generalizing emitted with
  | nil => rfl
  | cons p ps ih =>
    simp only [codeEmit, specEmitAux]
    by_cases hc : 5 ≤ p - lastReported emitted ∨ 99 ≤ p
    · rw [if_pos hc, if_pos hc]
      have hlast : lastReported (emitted ++ [p]) = p := by
        simp [lastReported]
      have h2 := ih (emitted ++ [p])
      rw [hlast] at h2
      rw [h2]
    · rw [if_neg hc, if_neg hc, ih]

/-- C9: during a download, the progress callback is invoked exactly on the
parsed percentage updates that are at least 5 points above the last reported
value (0 before any report) or that signal completion (≥ 99%), and on no
other update: the source loop (`codeEmit`, mutable `lastProgress`) emits the
same sequence as the claim's description (`specEmit`, "last reported value"
read off the report history).  The concrete run shows the throttling. -/
theorem C9_progress_throttle :
    (∀ ps : List ℚ, codeEmit 0 ps = specEmit ps)
    ∧ codeEmit 0 [3, 7, 9, 12, 98, 99, 100] = [7, 12, 98, 99, 100] := by
  constructor
  · intro ps
    exact codeEmit_eq_specEmitAux [] ps
  · norm_num [codeEmit]

end Ytdlp

namespace Session

/-- C5: a `get` performed after `expiresAt` returns "not found" and deletes
the expired row from the durable store as a side effect, so expired session
data is never returned to the caller. -/
theorem C5_expired_session_get (now : Nat) (id : String) (st : Store) (row : SessionRow)
    (hfind : prismaFindUnique st id = some row) (hexp : row.expiresAt < now) :
    (sessionGet now id st).1 = none
      ∧ prismaFindUnique (sessionGet now id st).2 id = none := by
  have hget : sessionGet now id st = (none, sessionDelete id st) := by
    unfold sessionGet
    rw [hfind]
    simp [hexp]
  rw [hget]
  refine ⟨rfl, ?_⟩
  unfold prismaFindUnique sessionDelete
  rw [List.find?_eq_none]
  intro x hx hcontra
  have hpx := List.of_mem_filter hx
  simp [hcontra] at hpx

/-- C5 witness: at time 100, the row stored under "s1" expired at 50. -/
theorem C5_expired_session_get_witness :
    (sessionGet 100 "s1" [rowSample]).1 = none
      ∧ prismaFindUnique (sessionGet 100 "s1" [rowSample]).2 "s1" = none :=
  C5_expired_session_get 100 "s1" [rowSample] rowSample (by decide) (by decide)

/-- C6, counterexample: `save` under an id that already has a stored session
does not succeed-and-replace — `prisma.videoSession.create` rejects the
duplicate primary key and `save` rethrows the error. -/
theorem C6_save_overwrite_counterexample :
    sessionSave 100 "s1" viSample [rowSample] = Except.error () := by
  rfl

/-- C6, amended: calling `save` again with an id that is already stored fails
with the unique-constraint error of `create` (which `save` logs and
rethrows); the stored metadata is not replaced and no fresh `expiresAt` is
written.  (`save` is insert-only; overwrite is not supported.) -/
theorem C6_save_overwrite_amended (now : Nat) (id : String) (vi : VideoInfoDto)
    (st : Store) (hdup : st.any (fun r => r.id == id) = true) :
    sessionSave now id vi st = Except.error () := by
  simp [sessionSave, prismaCreate, hdup]

/-- C6 witness: the amended statement at the concrete duplicate id "s1". -/
theorem C6_save_overwrite_amended_witness :
    sessionSave 7 "s1" viSample [rowSample] = Except.error () :=
  C6_save_overwrite_amended 7 "s1" viSample [rowSample] (by decide)

end Session

namespace Orch

/-- C1: when the fingerprint has a cache entry and the session resolves, a
successful delivery of the cached reference ends the request as
delivered-from-cache with the hit recorded and no fetch enqueued; if that
delivery throws and no download of the same dedup key is in flight, the
request falls through to a fresh fetch (enqueued) instead of failing. -/
theorem C1_cache_hit_path (env : SelEnv) (formatId : String) (c : CachedFile)
    (vd : Session.VideoInfoDto) (hc : env.cachedFile = some c)
    (hs : env.memSession.orElse (fun _ => env.dbSession) = some vd) :
    (env.cachedDeliveryOk = true →
      handleQualitySelection env formatId
        = ⟨SelOutcome.deliveredFromCache, false, true⟩)
    ∧ (env.cachedDeliveryOk = false →
        env.activeKeys.contains (vd.id ++ "|" ++ formatId) = false →
        handleQualitySelection env formatId = ⟨SelOutcome.enqueued, true, false⟩) := by
  unfold handleQualitySelection
  rw [hs, hc]
  constructor
  · intro hd
    simp [hd]
  · intro hd hk
    have hk2 : vd.id ++ "|" ++ formatId ∉ env.activeKeys := by simpa using hk
    simp [hd, hk2]

/-- C1 witness: both branches at concrete environments. -/
theorem C1_cache_hit_path_witness :
    handleQualitySelection envHit "f22" = ⟨SelOutcome.deliveredFromCache, false, true⟩
    ∧ handleQualitySelection envHitStale "f22" = ⟨SelOutcome.enqueued, true, false⟩ :=
  ⟨(C1_cache_hit_path envHit "f22" ⟨1, "file123"⟩ Session.viSample rfl rfl).1 rfl,
   (C1_cache_hit_path envHitStale "f22" ⟨1, "file123"⟩ Session.viSample rfl rfl).2 rfl rfl⟩

/-- C2: under the interleaving check-A, check-B, register-A, register-B —
reachable because `await ctx.answerCallbackQuery` suspends each flow between
its `activeDownloads.has` check and its `queueService.add` +
`activeDownloads.set` block — both flows pass the check and both start a
fetch for the same dedup key: two fetch invocations are in flight at once,
so the check-and-set is not atomic.  Under the sequential schedule (A runs
check and register before B checks) the second flow is told to wait. -/
theorem C2_dedup_check_race :
    (runRace "vid|fmt" [false, true, false, true]).fetchesStarted = 2
    ∧ (runRace "vid|fmt" [false, true, false, true]).pcA = DedupPC.finished false
    ∧ (runRace "vid|fmt" [false, true, false, true]).pcB = DedupPC.finished false
    ∧ (runRace "vid|fmt" [false, false, true, true]).fetchesStarted = 1
    ∧ (runRace "vid|fmt" [false, false, true, true]).pcB = DedupPC.finished true :=
  ⟨rfl, rfl, rfl, rfl, rfl⟩

/-- C7, counterexample: deletion of the temporary artifact is not
unconditional.  When the archive upload fails (fetch succeeded), or when
delivery fails, the job finishes through the catch handler and the file is
still on disk. -/
theorem C7_cleanup_counterexample :
    (processDownload ⟨true, false, true, true⟩).fileOnDisk = true
    ∧ (processDownload ⟨true, false, true, true⟩).surfacedError = some DlError.uploadFailed
    ∧ (processDownload ⟨true, true, true, false⟩).fileOnDisk = true :=
  ⟨rfl, rfl, rfl⟩

/-- C7, amended: the `unlink` sits on the success path inside the try block,
so the local artifact is removed exactly when fetch, archive upload and
delivery all succeed (a failed fetch leaves no completed artifact); an error
at upload or delivery leaves the downloaded file on disk. -/
theorem C7_cleanup_amended :
    ∀ fetchOk uploadOk cacheOk deliveryOk : Bool,
      (processDownload ⟨fetchOk, uploadOk, cacheOk, deliveryOk⟩).fileOnDisk
        = (fetchOk && (!uploadOk || !deliveryOk)) := by
  decide

/-- C8: a failing cache-entry write never aborts the job — no execution of
`processDownload` surfaces `cacheWriteFailed` to the user — and with fetch and
archive successful, a cache-write failure is logged only while delivery and
the statistics still happen. -/
theorem C8_cache_write_nonfatal :
    (∀ fetchOk uploadOk cacheOk deliveryOk : Bool,
      ((processDownload ⟨fetchOk, uploadOk, cacheOk, deliveryOk⟩).surfacedError
          == some DlError.cacheWriteFailed) = false)
    ∧ processDownload ⟨true, true, false, true⟩
        = { delivered := true, surfacedError := none, cacheErrorLogged := true,
            fileOnDisk := false, statsIncremented := true } :=
  ⟨by decide, rfl⟩

/-- C10: every entry the user is offered is either the single audio entry or a
video whose parsed height lies in [360, 1080] (though the resolver keeps
heights down to 144); and when nothing survives the filter the user gets the
no-usable-quality message and no selection is offered. -/
theorem C10_presentation_filter :
    ∀ allFormats : List Ytdlp.FormatDto,
      (∀ f ∈ visibleFormats allFormats,
        f.resolution = "audio"
          ∨ ∃ h, parseIntLead f.resolution = some h ∧ 360 ≤ h ∧ h ≤ 1080)
      ∧ (visibleFormats allFormats).countP (fun f => f.resolution == "audio") ≤ 1
      ∧ (visibleFormats allFormats = [] →
          presentChoices allFormats = PresentOutcome.noUsable)
      ∧ (¬ visibleFormats allFormats = [] →
          presentChoices allFormats = PresentOutcome.choices (visibleFormats allFormats)) := by
  intro allFormats
  have hfil : ∀ f ∈ allFormats.filter (fun f =>
      if f.resolution == "audio" then false
      else
        match parseIntLead f.resolution with
        | none => false
        | some h => decide (360 ≤ h) && decide (h ≤ 1080)),
      ¬ f.resolution = "audio"
        ∧ ∃ h, parseIntLead f.resolution = some h ∧ 360 ≤ h ∧ h ≤ 1080 := by
    intro f hf
    have hp := List.of_mem_filter hf
    by_cases hra : (f.resolution == "audio") = true
    · rw [if_pos hra] at hp
      exact Bool.noConfusion hp
    · rw [if_neg hra] at hp
      refine ⟨by simpa using hra, ?_⟩
      rcases hpar : parseIntLead f.resolution with _ | h <;> rw [hpar] at hp
      · exact Bool.noConfusion hp
      · simp only [Bool.and_eq_true, decide_eq_true_eq] at hp
        exact ⟨h, rfl, hp.1, hp.2⟩
  refine ⟨?_, ?_, ?_, ?_⟩
  · intro f hf
    simp only [visibleFormats] at hf
    rcases haf : allFormats.find? (fun f => f.resolution == "audio") with _ | a <;>
      rw [haf] at hf
    · exact Or.inr (hfil f ((Ytdlp.sortDescBy_perm _ _).mem_iff.mp hf)).2
    · rcases List.mem_append.mp hf with hf | hf
      · exact Or.inr (hfil f ((Ytdlp.sortDescBy_perm _ _).mem_iff.mp hf)).2
      · simp only [List.mem_singleton] at hf
        subst hf
        have := List.find?_some haf
        exact Or.inl (by simpa using this)
  · simp only [visibleFormats]
    have hz : (Ytdlp.sortDescBy (fun f => (parseIntLead f.resolution).getD 0)
        (allFormats.filter (fun f =>
          if f.resolution == "audio" then false
          else
            match parseIntLead f.resolution with
            | none => false
            | some h => decide (360 ≤ h) && decide (h ≤ 1080)))).countP
          (fun f => f.resolution == "audio") = 0 := by
      rw [List.countP_eq_zero]
      intro f hf
      have := (hfil f ((Ytdlp.sortDescBy_perm _ _).mem_iff.mp hf)).1
      simpa using this
    rcases haf : allFormats.find? (fun f => f.resolution == "audio") with _ | a
    · simp only [haf]
      rw [hz]
      decide
    · simp only [haf]
      rw [List.countP_append, hz, List.countP_cons]
      simp only [Nat.zero_add]
      split <;> decide
  · intro h
    simp [presentChoices, h]
  · intro h
    simp [presentChoices, List.isEmpty_iff, h]

end Orch
